import Mathlib

/-
Verification of the file-transfer repository consisting of archiver.py
(container codec), FTServer.py (event-loop server with a per-connection
state machine) and FTClient.py (transfer session).

Bytes are modelled as natural numbers (the values 0..255 produced by
indexing Python bytes objects).  Python byte strings are modelled as
List Nat.  File descriptors and the file system are modelled by
recording, for each operation, the byte sequences that are written;
opening a file for writing is assumed to succeed (no claim depends on
open failures).  Python int() parsing is modelled for ASCII text
(pyIntAscii?); the byte fields handled by the theorems below are
restricted to ASCII bytes, where bytes.decode() is the identity on the
character codes.
-/

set_option maxRecDepth 8000

/-- Character codes of a string literal, used to write concrete byte
sequences readably. -/
def strBytes (s : String) : List Nat := s.toList.map Char.toNat

/-- ASCII whitespace recognised by Python int() when parsing a string:
space, tab, newline, carriage return, vertical tab, form feed. -/
def isPySpace (b : Nat) : Bool :=
  b = 32 || b = 9 || b = 10 || b = 13 || b = 11 || b = 12

/-- ASCII whitespace recognised by Python str.isspace and hence
stripped by str.strip: the int() set plus the separator control codes
0x1c to 0x1f. -/
def isStrSpace (b : Nat) : Bool :=
  isPySpace b || (28 ≤ b && b ≤ 31)

/-- ASCII decimal digit test. -/
def isDigitB (b : Nat) : Bool := 48 ≤ b && 57 ≥ b

/-- All bytes below 128: exactly the inputs on which bytes.decode() is
the identity on character codes. -/
def allAscii (l : List Nat) : Bool := l.all (fun b => b < 128)

/-- The whitespace stripping Python int() applies to its string
argument: remove leading and trailing int-whitespace. -/
def pyStrip (l : List Nat) : List Nat :=
  ((l.dropWhile isPySpace).reverse.dropWhile isPySpace).reverse

/-- Python str.strip on a byte-code list of ASCII character codes:
remove leading and trailing str-whitespace (a larger set than the one
int() itself strips). -/
def pyStrStrip (l : List Nat) : List Nat :=
  ((l.dropWhile isStrSpace).reverse.dropWhile isStrSpace).reverse

/-- Digit-run acceptor for Python int(): after a first digit, digits
optionally separated by single underscores; accumulates the value. -/
def digitsUndAux : Nat → List Nat → Option Nat
  | acc, [] => some acc
  | acc, b :: rest =>
    if isDigitB b then digitsUndAux (acc * 10 + (b - 48)) rest
    else if b = 95 then
      match rest with
      | [] => none
      | c :: rest2 =>
        if isDigitB c then digitsUndAux (acc * 10 + (c - 48)) rest2 else none
    else none

/-- Digit run of Python int(): must start with a digit. -/
def digitsUnd : List Nat → Option Nat
  | [] => none
  | b :: rest => if isDigitB b then digitsUndAux (b - 48) rest else none

/-- Python int() on ASCII text (base 10): optional surrounding
whitespace, optional sign, then digits with optional single underscore
separators.  Returns none exactly when int() raises ValueError. -/
def pyIntAscii? (l : List Nat) : Option Int :=
  match pyStrip l with
  | [] => none
  | b :: rest =>
    if b = 43 then (digitsUnd rest).map Int.ofNat
    else if b = 45 then (digitsUnd rest).map (fun n => -(n : Int))
    else (digitsUnd (b :: rest)).map Int.ofNat

/-- int(field.decode()): decode succeeds (identity) for ASCII bytes;
non-ASCII fields are modelled as failing (for invalid UTF-8 Python
raises UnicodeDecodeError; theorems that depend on this branch restrict
the field to ASCII bytes). -/
def pyIntBytes? (l : List Nat) : Option Int :=
  if allAscii l then pyIntAscii? l else none

/-- Python slice l[:stop] with a possibly negative stop:
a negative stop counts from the end, clamped at zero. -/
def pySliceTo (stop : Int) (l : List Nat) : List Nat :=
  if 0 ≤ stop then l.take stop.toNat
  else l.take (l.length - (-stop).toNat)

/-- Split a byte list at the first newline (byte 10), if any. -/
def splitOnce : List Nat → Option (List Nat × List Nat)
  | [] => none
  | b :: rest =>
    if b = 10 then some ([], rest)
    else (splitOnce rest).map (fun p => (b :: p.1, p.2))

/-- Python buffer.split(newline, 2): at most two splits, so at most
three parts; the third part keeps any further newlines. -/
def split2 (l : List Nat) : List (List Nat) :=
  match splitOnce l with
  | none => [l]
  | some (a, r) =>
    match splitOnce r with
    | none => [a, r]
    | some (b, r2) => [a, b, r2]

/-- Decimal digits of n, most significant first (fuel-indexed; the fuel
never runs out when it is at least n, since n strictly decreases). -/
def decDigitsF : Nat → Nat → List Nat
  | 0, n => [n]
  | fuel + 1, n => if n < 10 then [n] else decDigitsF fuel (n / 10) ++ [n % 10]

/-- Decimal digits of n, most significant first. -/
def decDigits (n : Nat) : List Nat := decDigitsF n n

/-- ASCII codes of the decimal representation of n (Python str(n) for
a non-negative n). -/
def decAscii (n : Nat) : List Nat := (decDigits n).map (fun d => d + 48)

/-- The 8-digit zero-padded decimal ASCII field written by the f-string
format spec 08d: zero-pad the decimal representation to a minimum width
of eight characters (wider numbers keep all their digits). -/
def pad8 (n : Nat) : List Nat :=
  List.replicate (8 - (decAscii n).length) 48 ++ decAscii n

/-- Value of a most-significant-first digit list. -/
def digitVal (l : List Nat) : Nat := l.foldl (fun a d => a * 10 + d) 0

/-- Value of a most-significant-first list of ASCII digit codes. -/
def asciiVal (l : List Nat) : Nat := l.foldl (fun a b => a * 10 + (b - 48)) 0

/-- One file given to Archiver.archive: its base name and content. -/
structure FFile where
  name : List Nat
  content : List Nat
deriving Repr, DecidableEq

/-- Serialized record written by Archiver.archive for one file:
size field, name-length field, name bytes, content bytes. -/
def record (f : FFile) : List Nat :=
  pad8 f.content.length ++ pad8 f.name.length ++ f.name ++ f.content

/-- Archiver.archive: concatenation of the records of the given files,
in order (the sequence of os.write calls on the output descriptor). -/
def archive (files : List FFile) : List Nat := (files.map record).flatten

/-- The chunks read by the os.read loop of Archiver.archive when the
chunk size is k (the source uses 4096): fuel-indexed, the fuel never
runs out when it is at least the length of the list and k is positive. -/
def chunksOfF (k : Nat) : Nat → List Nat → List (List Nat)
  | _, [] => []
  | 0, _ :: _ => []
  | fuel + 1, a :: l => (a :: l).take k :: chunksOfF k fuel ((a :: l).drop k)

/-- The chunks read for a content list when the chunk size is k. -/
def chunksOf (k : Nat) (l : List Nat) : List (List Nat) := chunksOfF k l.length l

/-- One record as written by Archiver.archive when the content is
streamed in chunks of size k: the header fields and name in single
writes, then one write per chunk. -/
def recordChunked (k : Nat) (f : FFile) : List Nat :=
  pad8 f.content.length ++ pad8 f.name.length ++ f.name ++ (chunksOf k f.content).flatten

/-- Archiver.archive with the content-streaming chunk size made
explicit (the source fixes k = 4096). -/
def archiveChunked (k : Nat) (files : List FFile) : List Nat :=
  (files.map (recordChunked k)).flatten

/-- The chunked copy loop of Archiver.extract: while remaining > 0,
read min(remaining, 4096) bytes from the source and write them; an
empty read before remaining reaches zero is an unexpected end of file.
Returns the bytes written and whether the loop completed.  Fuel-indexed:
remaining decreases by at least one per iteration, so a fuel equal to
the initial remaining never runs out. -/
def writeLoopF : Nat → Nat → List Nat → List Nat × Bool
  | _, 0, _ => ([], true)
  | 0, _ + 1, _ => ([], false)
  | fuel + 1, r + 1, src =>
    let chunk := src.take (min (r + 1) 4096)
    if chunk = [] then ([], false)
    else
      let res := writeLoopF fuel (r + 1 - chunk.length) (src.drop chunk.length)
      (chunk ++ res.1, res.2)

/-- The chunked copy loop of Archiver.extract for a given remaining
count and available source bytes. -/
def writeLoop (remaining : Nat) (src : List Nat) : List Nat × Bool :=
  writeLoopF remaining remaining src

/-- The controlled failure exits of Archiver.extract: each prints an
error message and calls sys.exit(1) before the try block that opens
the output file, so the SystemExit propagates cleanly. -/
inductive ErrKind
  | truncatedSizeField
  | truncatedNameLenField
  | emptyFilename
deriving Repr, DecidableEq

/-- How a call to Archiver.extract ends: normal return, a printed
error followed by an uninterrupted sys.exit(1), or an uncaught Python
exception that is not SystemExit (ValueError from int(),
UnicodeDecodeError from decode(), OSError from a negative read count,
or the OSError raised when the finally block closes the already-closed
output descriptor on the truncated-body path, replacing the in-flight
SystemExit). -/
inductive Outcome
  | ok
  | exitErr (k : ErrKind)
  | exc
deriving Repr, DecidableEq

/-- The bytes of the literal string new_ prepended by both
Archiver.extract and FileServer.process_header to derived filenames. -/
def newTag : List Nat := strBytes "new_"

/-- Result of Archiver.extract: the output files it created
(path bytes and content bytes, a partial file is recorded on a
truncated body) together with how the call ended. -/
structure ExtractRes where
  outputs : List (List Nat × List Nat)
  outcome : Outcome
deriving Repr, DecidableEq

/-- Archiver.extract on the byte content of the archive file, step by
step as in the source: read 8 bytes and fail (print + sys.exit) when
fewer are available, parse them with int(); read 8 more bytes for the
name length the same way; read name-length bytes and fail when none
are available; decode the name and prefix it with new_; create the
output file and copy the declared number of content bytes in chunks.
When the source ends before the declared size is reached, the code
writes the unexpected-end-of-file message, closes both descriptors and
calls sys.exit(1), but the finally block then closes fd_out a second
time: that close raises OSError (bad file descriptor), which replaces
the in-flight SystemExit, so the truncated-body path really ends in an
uncaught OSError (outcome exc), not in the controlled exit.  On the
success path fd_out is closed only once, by the finally block.  The
while loop of the source is commented out, so exactly one record is
processed. -/
def extract (input : List Nat) : ExtractRes :=
  if (input.take 8).length < 8 then ⟨[], .exitErr .truncatedSizeField⟩
  else
    match pyIntBytes? (input.take 8) with
    | none => ⟨[], .exc⟩
    | some filesize =>
      if ((input.drop 8).take 8).length < 8 then ⟨[], .exitErr .truncatedNameLenField⟩
      else
        match pyIntBytes? ((input.drop 8).take 8) with
        | none => ⟨[], .exc⟩
        | some filename_len =>
          if filename_len < 0 then ⟨[], .exc⟩
          else
            if (((input.drop 8).drop 8).take filename_len.toNat).length < 1 then
              ⟨[], .exitErr .emptyFilename⟩
            else if !allAscii (((input.drop 8).drop 8).take filename_len.toNat) then
              ⟨[], .exc⟩
            else
              match writeLoop filesize.toNat (((input.drop 8).drop 8).drop filename_len.toNat) with
              | (written, true) =>
                ⟨[(newTag ++ ((input.drop 8).drop 8).take filename_len.toNat, written)], .ok⟩
              | (written, false) =>
                ⟨[(newTag ++ ((input.drop 8).drop 8).take filename_len.toNat, written)],
                  .exc⟩

/-- The two parsing phases of a server connection
(client state values header and data in FTServer.py). -/
inductive Phase
  | header
  | data
deriving Repr, DecidableEq

/-- The per-connection dictionary created by
FileServer.accept_connection; fileData records the bytes written to the
output descriptor fd_out. -/
structure Conn where
  state : Phase
  buffer : List Nat
  archive_name : Option (List Nat)
  file_size : Option Int
  received : Nat
  fileData : List Nat
deriving Repr, DecidableEq

/-- A freshly accepted connection. -/
def freshConn : Conn :=
  ⟨Phase.header, [], none, none, 0, []⟩

/-- What one invocation of FileServer.handle_client leads to: the
connection stays registered, the connection alone is closed (with or
without the acknowledgment having been sent), or the whole server
process exits because a sys.exit inside Archiver.extract raised
SystemExit, which the except Exception handler does not catch. -/
inductive StepRes
  | keepOpen (c : Conn)
  | closedConn (c : Conn) (ack : Bool)
  | procExit (c : Conn)
deriving Repr, DecidableEq

/-- The connection record carried by a step result. -/
def resConn : StepRes → Conn
  | .keepOpen c => c
  | .closedConn c _ => c
  | .procExit c => c

/-- True when the step closed this connection (server still running). -/
def isClosedConn : StepRes → Bool
  | .closedConn _ _ => true
  | _ => false

/-- True when the step ended the whole server process. -/
def isProcExit : StepRes → Bool
  | .procExit _ => true
  | _ => false

/-- The output filename derived by FileServer.process_header from the
received archive name: the f-string new_ prefix applied to the
str.strip of the decoded name. -/
def deriveArchiveName (name : List Nat) : List Nat :=
  newTag ++ pyStrStrip name

/-- FileServer.process_header: split the buffer at up to two newlines
and unpack into exactly three parts; fewer parts raise ValueError
(modelled as Except.error, caught by handle_client).  On success,
derive the archive name, parse the size with int(size.decode().strip())
(str.strip first, then the parse by int), keep the remaining bytes in
the buffer and move to the data state.  Opening fd_out is assumed to
succeed. -/
def process_header (c : Conn) : Except Unit Conn :=
  match split2 c.buffer with
  | [name, size, rest] =>
    if allAscii name then
      match pyIntBytes? (pyStrStrip size) with
      | none => .error ()
      | some n =>
        .ok { c with
          state := Phase.data
          buffer := rest
          archive_name := some (deriveArchiveName name)
          file_size := some n }
    else .error ()
  | _ => .error ()

/-- FileServer.process_data: slice up to file_size - received bytes
from the buffer (a Python slice, so a negative remaining counts from
the end), write them to fd_out, and on received >= file_size close the
output, run Archiver.extract on the received file and acknowledge.
The pre-try sys.exit calls inside extract (exitErr outcomes) raise
SystemExit, which escapes the except Exception handler and ends the
server process; an ordinary uncaught exception from extract (outcome
exc, including the OSError from the double close on the truncated-body
path) is caught by handle_client, closing only this connection. -/
def process_data (c : Conn) : StepRes :=
  let n := c.file_size.getD 0
  let remaining : Int := n - c.received
  let chunk := pySliceTo remaining c.buffer
  let c2 :=
    if chunk = [] then c
    else { c with
      fileData := c.fileData ++ chunk
      received := c.received + chunk.length
      buffer := c.buffer.drop chunk.length }
  if n ≤ (c2.received : Int) then
    match (extract c2.fileData).outcome with
    | .ok => .closedConn c2 true
    | .exitErr _ => .procExit c2
    | .exc => .closedConn c2 false
  else .keepOpen c2

/-- FileServer.handle_client: an empty read raises ConnectionError
(caught, closing the connection); otherwise append the data to the
buffer, run process_header while in the header state (an error closes
the connection), then process_data in the data state. -/
def handle_client (c : Conn) (data : List Nat) : StepRes :=
  if data = [] then .closedConn c false
  else
    let c1 : Conn := { c with buffer := c.buffer ++ data }
    match c1.state with
    | Phase.header =>
      match process_header c1 with
      | .error _ => .closedConn c1 false
      | .ok c2 => process_data c2
    | Phase.data => process_data c1

theorem take_append_len {l m : List Nat} {k : Nat} (h : l.length = k) :
    (l ++ m).take k = l := by
  subst h; exact List.take_left l m

theorem drop_append_len {l m : List Nat} {k : Nat} (h : l.length = k) :
    (l ++ m).drop k = m := by
  subst h; exact List.drop_left l m

theorem decDigitsF_irrel : ∀ f g n, n ≤ f → n ≤ g → decDigitsF f n = decDigitsF g n := by
  intro f
  induction f with
  | zero =>
    intro g n hf _
    have hn : n = 0 := Nat.le_zero.mp hf
    subst hn
    cases g with
    | zero => rfl
    | succ g => simp [decDigitsF]
  | succ f ih =>
    intro g n hf hg
    cases g with
    | zero =>
      have hn : n = 0 := Nat.le_zero.mp hg
      subst hn
      simp [decDigitsF]
    | succ g =>
      simp only [decDigitsF]
      by_cases h10 : n < 10
      · simp [h10]
      · have hpos : 0 < n := by omega
        have hdiv : n / 10 < n := Nat.div_lt_self hpos (by omega)
        simp only [h10, if_false]
        rw [ih g (n / 10) (by omega) (by omega)]

theorem decDigits_unfold (n : Nat) :
    decDigits n = if n < 10 then [n] else decDigits (n / 10) ++ [n % 10] := by
  by_cases h : n < 10
  · simp only [h, if_true, decDigits]
    cases n with
    | zero => rfl
    | succ k => simp [decDigitsF, h]
  · simp only [h, if_false, decDigits]
    obtain ⟨m, rfl⟩ : ∃ m, n = m + 1 := ⟨n - 1, by omega⟩
    simp only [decDigitsF, h, if_false]
    have hdiv : (m + 1) / 10 < m + 1 := Nat.div_lt_self (by omega) (by omega)
    rw [decDigitsF_irrel m ((m + 1) / 10) ((m + 1) / 10) (by omega) (by omega)]

theorem decDigits_lt10 (n : Nat) : ∀ d ∈ decDigits n, d < 10 := by
  induction n using Nat.strong_induction_on with
  | _ n ih =>
    rw [decDigits_unfold]
    by_cases h : n < 10
    · simp [h]
    · have hpos : 0 < n := by omega
      have hdiv : n / 10 < n := Nat.div_lt_self hpos (by omega)
      simp only [h, if_false]
      intro d hd
      rcases List.mem_append.mp hd with h1 | h2
      · exact ih (n / 10) hdiv d h1
      · have : d = n % 10 := List.mem_singleton.mp h2
        subst this
        exact Nat.mod_lt n (by omega)

theorem decDigits_ne_nil (n : Nat) : decDigits n ≠ [] := by
  rw [decDigits_unfold]
  by_cases h : n < 10 <;> simp [h]

theorem decDigits_len_le (n : Nat) : ∀ k, 0 < k → n < 10 ^ k → (decDigits n).length ≤ k := by
  induction n using Nat.strong_induction_on with
  | _ n ih =>
    intro k hk hn
    rw [decDigits_unfold]
    by_cases h : n < 10
    · simp [h]; omega
    · have hpos : 0 < n := by omega
      have hdiv : n / 10 < n := Nat.div_lt_self hpos (by omega)
      have hk2 : 2 ≤ k := by
        by_contra hc
        have : k = 1 := by omega
        subst this
        simp at hn
        omega
      have hless : n / 10 < 10 ^ (k - 1) := by
        have h10 : 0 < 10 := by omega
        rw [Nat.div_lt_iff_lt_mul h10]
        calc n < 10 ^ k := hn
        _ = 10 ^ (k - 1) * 10 := by
            rw [← Nat.pow_succ]
            congr 1
            omega
      have := ih (n / 10) hdiv (k - 1) (by omega) hless
      simp only [h, if_false, List.length_append, List.length_singleton]
      omega

theorem digitVal_decDigits (n : Nat) : digitVal (decDigits n) = n := by
  induction n using Nat.strong_induction_on with
  | _ n ih =>
    rw [decDigits_unfold]
    by_cases h : n < 10
    · simp [h, digitVal]
    · have hpos : 0 < n := by omega
      have hdiv : n / 10 < n := Nat.div_lt_self hpos (by omega)
      simp only [h, if_false, digitVal, List.foldl_append, List.foldl_cons, List.foldl_nil]
      have := ih (n / 10) hdiv
      simp only [digitVal] at this
      rw [this]
      omega

theorem asciiVal_decAscii (n : Nat) : asciiVal (decAscii n) = n := by
  have : asciiVal (decAscii n) = digitVal (decDigits n) := by
    simp only [asciiVal, decAscii, digitVal, List.foldl_map]
    have hf : (fun (x : Nat) (y : Nat) => x * 10 + (y + 48 - 48)) =
        fun (a : Nat) (d : Nat) => a * 10 + d := by
      funext a d
      omega
    rw [hf]
  rw [this, digitVal_decDigits]

theorem foldl_replicate_zero (k : Nat) (i : Nat) :
    (List.replicate k 48).foldl (fun a b => a * 10 + (b - 48)) i = i * 10 ^ k := by
  induction k generalizing i with
  | zero => simp
  | succ k ih =>
    simp only [List.replicate_succ, List.foldl_cons]
    rw [ih]
    have h48 : 48 - 48 = 0 := by omega
    rw [h48, Nat.pow_succ]
    ring

theorem asciiVal_pad8 (n : Nat) : asciiVal (pad8 n) = n := by
  simp only [pad8, asciiVal, List.foldl_append]
  rw [foldl_replicate_zero]
  simpa [asciiVal] using asciiVal_decAscii n

theorem pad8_digits (n : Nat) : ∀ b ∈ pad8 n, isDigitB b = true := by
  intro b hb
  rcases List.mem_append.mp hb with h1 | h2
  · have : b = 48 := List.eq_of_mem_replicate h1
    subst this
    decide
  · simp only [decAscii, List.mem_map] at h2
    obtain ⟨d, hd, rfl⟩ := h2
    have := decDigits_lt10 n d hd
    simp only [isDigitB, Bool.and_eq_true, decide_eq_true_eq, ge_iff_le]
    omega

theorem pad8_ne_nil (n : Nat) : pad8 n ≠ [] := by
  cases hd : decDigits n with
  | nil => exact absurd hd (decDigits_ne_nil n)
  | cons a t => simp [pad8, decAscii, hd]

theorem pad8_len (n : Nat) (h : n < 100000000) : (pad8 n).length = 8 := by
  have hlen : (decAscii n).length ≤ 8 := by
    simp only [decAscii, List.length_map]
    exact decDigits_len_le n 8 (by omega) (by norm_num; omega)
  simp only [pad8, List.length_append, List.length_replicate]
  omega

theorem allAscii_pad8 (n : Nat) : allAscii (pad8 n) = true := by
  simp only [allAscii, List.all_eq_true, decide_eq_true_eq]
  intro b hb
  have := pad8_digits n b hb
  simp only [isDigitB, Bool.and_eq_true, decide_eq_true_eq, ge_iff_le] at this
  omega

theorem digit_not_space {b : Nat} (h : isDigitB b = true) : isPySpace b = false := by
  simp only [isDigitB, Bool.and_eq_true, decide_eq_true_eq, ge_iff_le] at h
  simp only [isPySpace]
  simp only [Bool.or_eq_false_iff, decide_eq_false_iff_not]
  omega

theorem dropWhile_eq_self_of_all {p : Nat → Bool} {l : List Nat}
    (h : ∀ b ∈ l, p b = false) : l.dropWhile p = l := by
  cases l with
  | nil => rfl
  | cons a t =>
    rw [List.dropWhile_cons]
    simp [h a (List.mem_cons_self a t)]

theorem pyStrip_digits {l : List Nat} (h : ∀ b ∈ l, isDigitB b = true) :
    pyStrip l = l := by
  have hs : ∀ b ∈ l, isPySpace b = false := fun b hb => digit_not_space (h b hb)
  simp only [pyStrip]
  rw [dropWhile_eq_self_of_all hs]
  rw [dropWhile_eq_self_of_all (fun b hb => hs b (List.mem_reverse.mp hb))]
  exact List.reverse_reverse l

theorem digitsUndAux_digits : ∀ (l : List Nat) (acc : Nat),
    (∀ b ∈ l, isDigitB b = true) →
    digitsUndAux acc l = some (l.foldl (fun a b => a * 10 + (b - 48)) acc) := by
  intro l
  induction l with
  | nil => intro acc _; rfl
  | cons b rest ih =>
    intro acc h
    have hb : isDigitB b = true := h b (List.mem_cons_self b rest)
    rw [digitsUndAux.eq_def]
    simp only [hb, if_true, List.foldl_cons]
    exact ih (acc * 10 + (b - 48)) (fun c hc => h c (List.mem_cons_of_mem b hc))

theorem digitsUnd_digits {l : List Nat} (h : ∀ b ∈ l, isDigitB b = true)
    (hne : l ≠ []) : digitsUnd l = some (asciiVal l) := by
  cases l with
  | nil => exact absurd rfl hne
  | cons b rest =>
    have hb : isDigitB b = true := h b (List.mem_cons_self b rest)
    simp only [digitsUnd, hb, if_true]
    rw [digitsUndAux_digits rest (b - 48) (fun c hc => h c (List.mem_cons_of_mem b hc))]
    simp [asciiVal]

theorem pyIntAscii?_digits {l : List Nat} (h : ∀ b ∈ l, isDigitB b = true)
    (hne : l ≠ []) : pyIntAscii? l = some (Int.ofNat (asciiVal l)) := by
  unfold pyIntAscii?
  rw [pyStrip_digits h]
  cases l with
  | nil => exact absurd rfl hne
  | cons b rest =>
    have hb : isDigitB b = true := h b (List.mem_cons_self b rest)
    have hb48 : 48 ≤ b ∧ b ≤ 57 := by
      simp only [isDigitB, Bool.and_eq_true, decide_eq_true_eq, ge_iff_le] at hb
      omega
    have h43 : ¬(b = 43) := by omega
    have h45 : ¬(b = 45) := by omega
    simp only [h43, if_false, h45]
    rw [digitsUnd_digits h (by simp)]
    rfl

theorem pyIntBytes?_pad8 (n : Nat) : pyIntBytes? (pad8 n) = some (Int.ofNat n) := by
  simp only [pyIntBytes?, allAscii_pad8 n, if_true]
  rw [pyIntAscii?_digits (pad8_digits n) (pad8_ne_nil n), asciiVal_pad8]

theorem writeLoopF_complete : ∀ (fuel n : Nat) (src : List Nat), n ≤ fuel →
    n ≤ src.length → writeLoopF fuel n src = (src.take n, true) := by
  intro fuel
  induction fuel with
  | zero =>
    intro n src hf _
    have : n = 0 := Nat.le_zero.mp hf
    subst this
    rfl
  | succ fuel ih =>
    intro n src hf hlen
    cases n with
    | zero => rfl
    | succ r =>
      rw [writeLoopF.eq_def]
      simp only
      have hklen : min (r + 1) 4096 ≤ src.length := by
        have : min (r + 1) 4096 ≤ r + 1 := Nat.min_le_left _ _
        omega
      have hchlen : (src.take (min (r + 1) 4096)).length = min (r + 1) 4096 := by
        rw [List.length_take]
        omega
      have hchne : ¬(src.take (min (r + 1) 4096) = []) := by
        intro hc
        rw [hc] at hchlen
        simp at hchlen
        omega
      simp only [hchne, if_false]
      rw [hchlen]
      have hk1 : 1 ≤ min (r + 1) 4096 := by
        have := Nat.min_le_left (r + 1) 4096
        simp only [le_min_iff]
        omega
      rw [ih (r + 1 - min (r + 1) 4096) (src.drop (min (r + 1) 4096)) (by omega)
        (by rw [List.length_drop]; omega)]
      simp only
      rw [← List.take_add]
      have : min (r + 1) 4096 + (r + 1 - min (r + 1) 4096) = r + 1 := by
        have := Nat.min_le_left (r + 1) 4096
        omega
      rw [this]

theorem take_append_drop_min (k : Nat) (l : List Nat) :
    l.take k ++ l.drop (min k l.length) = l := by
  by_cases h : k ≤ l.length
  · rw [Nat.min_eq_left h]
    exact List.take_append_drop k l
  · rw [List.take_of_length_le (by omega), Nat.min_eq_right (by omega),
      List.drop_length, List.append_nil]

theorem writeLoopF_trunc : ∀ (fuel n : Nat) (src : List Nat), n ≤ fuel →
    src.length < n → writeLoopF fuel n src = (src, false) := by
  intro fuel
  induction fuel with
  | zero =>
    intro n src hf hlen
    have : n = 0 := Nat.le_zero.mp hf
    omega
  | succ fuel ih =>
    intro n src hf hlen
    cases n with
    | zero => omega
    | succ r =>
      rw [writeLoopF.eq_def]
      simp only
      cases src with
      | nil => simp
      | cons a t =>
        have hsrcpos : 0 < (a :: t).length := by simp
        have hchlen : ((a :: t).take (min (r + 1) 4096)).length =
            min (min (r + 1) 4096) (a :: t).length := by
          rw [List.length_take]
        have hchne : ¬((a :: t).take (min (r + 1) 4096) = []) := by
          intro hcon
          have := congrArg List.length hcon
          rw [hchlen] at this
          simp only [List.length_nil] at this
          omega
        simp only [hchne, if_false]
        rw [hchlen]
        rw [ih (r + 1 - min (min (r + 1) 4096) (a :: t).length)
          ((a :: t).drop (min (min (r + 1) 4096) (a :: t).length)) (by omega)
          (by rw [List.length_drop]; omega)]
        simp only
        rw [take_append_drop_min]

theorem writeLoop_complete {n : Nat} {src : List Nat} (h : n ≤ src.length) :
    writeLoop n src = (src.take n, true) :=
  writeLoopF_complete n n src (Nat.le_refl n) h

theorem writeLoop_trunc {n : Nat} {src : List Nat} (h : src.length < n) :
    writeLoop n src = (src, false) :=
  writeLoopF_trunc n n src (Nat.le_refl n) h

theorem chunksOfF_flatten {k : Nat} (hk : 0 < k) : ∀ (fuel : Nat) (l : List Nat),
    l.length ≤ fuel → (chunksOfF k fuel l).flatten = l := by
  intro fuel
  induction fuel with
  | zero =>
    intro l hl
    cases l with
    | nil => rfl
    | cons a t => simp at hl
  | succ fuel ih =>
    intro l hl
    cases l with
    | nil => rfl
    | cons a t =>
      rw [chunksOfF.eq_def]
      simp only [List.flatten_cons]
      rw [ih ((a :: t).drop k) (by rw [List.length_drop]; simp at hl ⊢; omega)]
      exact List.take_append_drop k (a :: t)

theorem chunksOf_flatten {k : Nat} (hk : 0 < k) (l : List Nat) :
    (chunksOf k l).flatten = l :=
  chunksOfF_flatten hk l.length l (Nat.le_refl _)

theorem extract_first_record (f : FFile) (R : List Nat)
    (hname : f.name ≠ [])
    (hascii : allAscii f.name = true)
    (hclen : f.content.length < 100000000)
    (hnlen : f.name.length < 100000000) :
    extract (record f ++ R) = ⟨[(newTag ++ f.name, f.content)], Outcome.ok⟩ := by
  have hassoc : record f ++ R =
      pad8 f.content.length ++ (pad8 f.name.length ++ (f.name ++ (f.content ++ R))) := by
    simp [record, List.append_assoc]
  rw [hassoc]
  have h1 : (pad8 f.content.length ++ (pad8 f.name.length ++ (f.name ++ (f.content ++ R)))).take 8 =
      pad8 f.content.length := take_append_len (pad8_len _ hclen)
  have h2 : (pad8 f.content.length ++ (pad8 f.name.length ++ (f.name ++ (f.content ++ R)))).drop 8 =
      pad8 f.name.length ++ (f.name ++ (f.content ++ R)) := drop_append_len (pad8_len _ hclen)
  have h3 : (pad8 f.name.length ++ (f.name ++ (f.content ++ R))).take 8 =
      pad8 f.name.length := take_append_len (pad8_len _ hnlen)
  have h4 : (pad8 f.name.length ++ (f.name ++ (f.content ++ R))).drop 8 =
      f.name ++ (f.content ++ R) := drop_append_len (pad8_len _ hnlen)
  have h5 : (f.name ++ (f.content ++ R)).take f.name.length = f.name :=
    take_append_len rfl
  have h6 : (f.name ++ (f.content ++ R)).drop f.name.length = f.content ++ R :=
    drop_append_len rfl
  have hnpos : 1 ≤ f.name.length := List.length_pos.mpr hname
  have hwl : writeLoop f.content.length (f.content ++ R) = (f.content, true) := by
    rw [writeLoop_complete (by simp)]
    congr 1
    exact take_append_len rfl
  have htn : (Int.ofNat f.name.length).toNat = f.name.length := rfl
  have htc : (Int.ofNat f.content.length).toNat = f.content.length := rfl
  have hneg : ¬(Int.ofNat f.name.length < 0) := by
    simp
  have hlen1 : ¬(f.name.length < 1) := by omega
  simp only [extract, h1, h2, h3, h4, pad8_len _ hclen, pad8_len _ hnlen,
    Nat.lt_irrefl, if_false, pyIntBytes?_pad8, htn, htc, h5, h6,
    hascii, Bool.not_true, hwl, hneg, hlen1, Bool.false_eq_true]

theorem extract_short {input : List Nat} (h : input.length < 8) :
    extract input = ⟨[], Outcome.exitErr ErrKind.truncatedSizeField⟩ := by
  have hc : (input.take 8).length < 8 := by
    rw [List.length_take]
    omega
  simp only [extract, hc, if_true]

theorem extract_zero_namelen (s : Nat) (content : List Nat) (hs : s < 100000000) :
    extract (pad8 s ++ (pad8 0 ++ content)) = ⟨[], Outcome.exitErr ErrKind.emptyFilename⟩ := by
  have h1 : (pad8 s ++ (pad8 0 ++ content)).take 8 = pad8 s :=
    take_append_len (pad8_len _ hs)
  have h2 : (pad8 s ++ (pad8 0 ++ content)).drop 8 = pad8 0 ++ content :=
    drop_append_len (pad8_len _ hs)
  have h3 : (pad8 0 ++ content).take 8 = pad8 0 :=
    take_append_len (pad8_len 0 (by omega))
  have h4 : (pad8 0 ++ content).drop 8 = content :=
    drop_append_len (pad8_len 0 (by omega))
  have htn : (Int.ofNat 0).toNat = 0 := rfl
  have hneg : ¬(Int.ofNat 0 < 0) := by simp
  have hlen1 : (content.take 0).length < 1 := by simp
  simp only [extract, h1, h2, h3, h4, pad8_len _ hs, pad8_len 0 (by omega : (0:Nat) < 100000000),
    Nat.lt_irrefl, if_false, pyIntBytes?_pad8, htn, hneg, List.take_zero, hlen1, if_true]
  simp

theorem extract_bad_size_field (field rest : List Nat) (h8 : field.length = 8)
    (ha : allAscii field = true) (hp : pyIntAscii? field = none) :
    extract (field ++ rest) = ⟨[], Outcome.exc⟩ := by
  have h1 : (field ++ rest).take 8 = field := take_append_len h8
  have hc : ¬(field.length < 8) := by omega
  have hpb : pyIntBytes? field = none := by
    simp only [pyIntBytes?, ha, if_true, hp]
  simp only [extract, h1, h8, Nat.lt_irrefl, if_false, hpb]

/-- A well-formed header whose declared size exceeds the available
bytes ends in an uncaught OSError: the unexpected-end-of-file branch
prints its message and calls sys.exit(1), but the finally block closes
the already-closed fd_out, and that OSError replaces the SystemExit.
The partially written output file remains on disk. -/
theorem extract_trunc_body (name content : List Nat) (sz : Nat)
    (hname : name ≠ []) (hascii : allAscii name = true)
    (hs : sz < 100000000) (hn : name.length < 100000000)
    (hshort : content.length < sz) :
    extract (pad8 sz ++ (pad8 name.length ++ (name ++ content))) =
      ⟨[(newTag ++ name, content)], Outcome.exc⟩ := by
  have h1 : (pad8 sz ++ (pad8 name.length ++ (name ++ content))).take 8 = pad8 sz :=
    take_append_len (pad8_len _ hs)
  have h2 : (pad8 sz ++ (pad8 name.length ++ (name ++ content))).drop 8 =
      pad8 name.length ++ (name ++ content) := drop_append_len (pad8_len _ hs)
  have h3 : (pad8 name.length ++ (name ++ content)).take 8 = pad8 name.length :=
    take_append_len (pad8_len _ hn)
  have h4 : (pad8 name.length ++ (name ++ content)).drop 8 = name ++ content :=
    drop_append_len (pad8_len _ hn)
  have h5 : (name ++ content).take name.length = name := take_append_len rfl
  have h6 : (name ++ content).drop name.length = content := drop_append_len rfl
  have htn : (Int.ofNat name.length).toNat = name.length := rfl
  have htc : (Int.ofNat sz).toNat = sz := rfl
  have hneg : ¬(Int.ofNat name.length < 0) := by simp
  have hnpos : 1 ≤ name.length := List.length_pos.mpr hname
  have hlen1 : ¬(name.length < 1) := by omega
  have hwl : writeLoop sz content = (content, false) := writeLoop_trunc hshort
  simp only [extract, h1, h2, h3, h4, pad8_len _ hs, pad8_len _ hn,
    Nat.lt_irrefl, if_false, pyIntBytes?_pad8, htn, htc, h5, h6,
    hascii, Bool.not_true, hwl, hneg, hlen1, Bool.false_eq_true]

theorem mem_dropWhile_of_mem {p : Nat → Bool} {l : List Nat} {b : Nat}
    (hb : b ∈ l) (hp : p b = false) : b ∈ l.dropWhile p := by
  have hsplit : l.takeWhile p ++ l.dropWhile p = l := List.takeWhile_append_dropWhile p l
  rcases List.mem_append.mp (hsplit ▸ hb) with h1 | h2
  · have := List.mem_takeWhile_imp h1
    rw [hp] at this
    exact absurd this (by simp)
  · exact h2

theorem mem_pyStrStrip_of_mem {l : List Nat} {b : Nat} (hb : b ∈ l)
    (hp : isStrSpace b = false) : b ∈ pyStrStrip l := by
  simp only [pyStrStrip, List.mem_reverse]
  exact mem_dropWhile_of_mem (List.mem_reverse.mpr (mem_dropWhile_of_mem hb hp)) hp

theorem resConn_process_data (c : Conn) :
    resConn (process_data c) =
      (if pySliceTo (c.file_size.getD 0 - c.received) c.buffer = [] then c
       else { c with
         fileData := c.fileData ++ pySliceTo (c.file_size.getD 0 - c.received) c.buffer
         received := c.received + (pySliceTo (c.file_size.getD 0 - c.received) c.buffer).length
         buffer := c.buffer.drop (pySliceTo (c.file_size.getD 0 - c.received) c.buffer).length }) := by
  unfold process_data
  by_cases hch : pySliceTo (c.file_size.getD 0 - c.received) c.buffer = []
  · simp only [hch, if_true]
    by_cases hdone : (c.file_size.getD 0 : Int) ≤ (c.received : Int)
    · simp only [hdone, if_true]
      cases (extract c.fileData).outcome <;> rfl
    · simp only [hdone, if_false]
      rfl
  · simp only [hch, if_false]
    by_cases hdone : (c.file_size.getD 0 : Int) ≤
        ((c.received + (pySliceTo (c.file_size.getD 0 - c.received) c.buffer).length : Nat) : Int)
    · simp only [hdone, if_true]
      cases (extract (c.fileData ++ pySliceTo (c.file_size.getD 0 - c.received) c.buffer)).outcome <;> rfl
    · simp only [hdone, if_false]
      rfl

theorem process_data_step (c : Conn) (n : Nat)
    (hfs : c.file_size = some ((n : Nat) : Int))
    (hrec : c.received ≤ n)
    (hfd : c.fileData.length = c.received) :
    (resConn (process_data c)).fileData =
        c.fileData ++ c.buffer.take (n - c.received) ∧
    (resConn (process_data c)).received =
        c.received + min (n - c.received) c.buffer.length ∧
    (resConn (process_data c)).received ≤ n ∧
    (resConn (process_data c)).fileData.length = (resConn (process_data c)).received := by
  have hnonneg : (0 : Int) ≤ ((n : Nat) : Int) - (c.received : Int) := by
    omega
  have htoNat : (((n : Nat) : Int) - (c.received : Int)).toNat = n - c.received :=
    Int.toNat_sub n c.received
  have hslice : pySliceTo (c.file_size.getD 0 - c.received) c.buffer =
      c.buffer.take (n - c.received) := by
    rw [hfs]
    simp only [Option.getD_some, pySliceTo, hnonneg, if_true, htoNat]
  have hlen : (c.buffer.take (n - c.received)).length = min (n - c.received) c.buffer.length :=
    List.length_take _ _
  rw [resConn_process_data, hslice]
  by_cases hch : c.buffer.take (n - c.received) = []
  · have hmin : min (n - c.received) c.buffer.length = 0 := by
      rw [hch] at hlen
      simpa using hlen.symm
    rw [if_pos hch, hch]
    refine ⟨by simp, by omega, by omega, by omega⟩
  · rw [if_neg hch]
    have hminle : min (n - c.received) c.buffer.length ≤ n - c.received :=
      Nat.min_le_left _ _
    refine ⟨rfl, by simp [hlen], ?_, ?_⟩
    · simp only [hlen]
      omega
    · simp only [List.length_append, hfd, hlen]

theorem recordChunked_eq {k : Nat} (hk : 0 < k) (f : FFile) :
    recordChunked k f = record f := by
  simp only [recordChunked, record, chunksOf_flatten hk]

theorem archiveChunked_eq {k : Nat} (hk : 0 < k) (files : List FFile) :
    archiveChunked k files = archive files := by
  simp only [archiveChunked, archive]
  congr 1
  exact List.map_congr_left (fun f _ => recordChunked_eq hk f)

theorem archive_cons (f : FFile) (rest : List FFile) :
    archive (f :: rest) = record f ++ archive rest := by
  simp [archive]

/-- Claim C1 (counterexample): decoding the container built from the
files a.txt (content hello) and b.bin (content 0x00..0xFF) produces a
single output artifact, not two: the record-reading loop of
Archiver.extract is commented out in the source, so only the first
record is extracted. -/
theorem claim_C1_counterexample :
    (extract (archive [⟨strBytes "a.txt", strBytes "hello"⟩,
        ⟨strBytes "b.bin", List.range 256⟩])).outputs =
      [(strBytes "new_a.txt", strBytes "hello")] ∧
    (extract (archive [⟨strBytes "a.txt", strBytes "hello"⟩,
        ⟨strBytes "b.bin", List.range 256⟩])).outputs.length ≠ 2 := by
  exact ⟨by decide, by decide⟩

/-- Claim C1 (amended): on a well-formed container holding two records,
Archiver.extract terminates normally after extracting exactly the first
record, writing one output file named new_ plus the stored name with
byte-identical content; the second record is never read. -/
theorem claim_C1_amended (f g : FFile)
    (hname : f.name ≠ []) (hascii : allAscii f.name = true)
    (hclen : f.content.length < 100000000) (hnlen : f.name.length < 100000000) :
    extract (archive [f, g]) = ⟨[(newTag ++ f.name, f.content)], Outcome.ok⟩ := by
  rw [archive_cons]
  exact extract_first_record f (archive [g]) hname hascii hclen hnlen

/-- Claim C1 (witness): the amended statement at the two files of the
claim. -/
theorem claim_C1_witness :
    extract (archive [⟨strBytes "a.txt", strBytes "hello"⟩,
        ⟨strBytes "b.bin", List.range 256⟩]) =
      ⟨[(newTag ++ strBytes "a.txt", strBytes "hello")], Outcome.ok⟩ :=
  claim_C1_amended ⟨strBytes "a.txt", strBytes "hello"⟩ ⟨strBytes "b.bin", List.range 256⟩
    (by decide) (by decide) (by decide) (by decide)

/-- Claim C2 (code behavior at the failing input): a fresh connection
whose first socket read delivers only a prefix of the metadata line
(no newline yet) is immediately closed: process_header unpacks
buffer.split into exactly three parts, which raises ValueError on fewer
than two newlines, and handle_client catches it and closes the
connection instead of leaving it in the awaiting-metadata state. -/
theorem claim_C2_code_behavior :
    handle_client freshConn (strBytes "archive_ab") =
      StepRes.closedConn ⟨Phase.header, strBytes "archive_ab", none, none, 0, []⟩ false := by
  decide

/-- Claim C3 (code behavior at the failing input): a single connection
that delivers the metadata line and a 3-byte body that is a malformed
container makes the whole server process exit: Archiver.extract calls
sys.exit(1), raising SystemExit, which the except Exception handler in
handle_client does not catch. -/
theorem claim_C3_code_behavior :
    handle_client freshConn (strBytes "x\n3\nAAA") =
      StepRes.procExit ⟨Phase.data, [], some (strBytes "new_x"), some 3, 3, strBytes "AAA"⟩ := by
  decide

/-- Claim C4 (counterexample): decoding the container encoded from the
two files f1.txt (content xy) and f2.txt (content z) reproduces only
one record, not both: the extraction loop is commented out in the
source. -/
theorem claim_C4_counterexample :
    (extract (archive [⟨strBytes "f1.txt", strBytes "xy"⟩,
        ⟨strBytes "f2.txt", strBytes "z"⟩])).outputs =
      [(strBytes "new_f1.txt", strBytes "xy")] ∧
    (extract (archive [⟨strBytes "f1.txt", strBytes "xy"⟩,
        ⟨strBytes "f2.txt", strBytes "z"⟩])).outputs.length = 1 := by
  exact ⟨by decide, by decide⟩

/-- Claim C4 (amended): for every non-empty list of files whose first
file has a non-empty ASCII name and sizes within the 8-digit limit,
decoding the encoded container reproduces exactly the FIRST record:
one output under new_ plus the original name with byte-identical
content; later records are not extracted. -/
theorem claim_C4_amended (f : FFile) (rest : List FFile)
    (hname : f.name ≠ []) (hascii : allAscii f.name = true)
    (hclen : f.content.length < 100000000) (hnlen : f.name.length < 100000000) :
    extract (archive (f :: rest)) = ⟨[(newTag ++ f.name, f.content)], Outcome.ok⟩ := by
  rw [archive_cons]
  exact extract_first_record f (archive rest) hname hascii hclen hnlen

/-- Claim C4 (witness): the amended statement at a concrete two-file
list including an empty file. -/
theorem claim_C4_witness :
    extract (archive [⟨strBytes "doc.txt", strBytes "abc"⟩, ⟨strBytes "empty.bin", []⟩]) =
      ⟨[(newTag ++ strBytes "doc.txt", strBytes "abc")], Outcome.ok⟩ :=
  claim_C4_amended ⟨strBytes "doc.txt", strBytes "abc"⟩ [⟨strBytes "empty.bin", []⟩]
    (by decide) (by decide) (by decide) (by decide)

/-- Claim C5 (confirmed): an input container with fewer than 8 bytes
fails decode with the truncated-header error path (a printed message
followed by sys.exit(1)), creating no output file and raising no
uncaught exception. -/
theorem claim_C5_truncated_header (input : List Nat) (h : input.length < 8) :
    extract input = ⟨[], Outcome.exitErr ErrKind.truncatedSizeField⟩ :=
  extract_short h

/-- Claim C5 (witness): the 5-byte container of the claim. -/
theorem claim_C5_witness :
    (strBytes "00005").length < 8 ∧
    extract (strBytes "00005") = ⟨[], Outcome.exitErr ErrKind.truncatedSizeField⟩ :=
  ⟨by decide, claim_C5_truncated_header (strBytes "00005") (by decide)⟩

/-- Claim C6 (counterexample): an 8-byte container whose size field is
the non-numeric ASCII text ABCDEFGH makes Archiver.extract end in an
uncaught ValueError from int() — an unclassified crash, not a
MalformedLength or TruncatedBody error (the source has no such
classification for non-numeric fields). -/
theorem claim_C6_counterexample :
    extract (strBytes "ABCDEFGH") = ⟨[], Outcome.exc⟩ := by
  decide

/-- Claim C6 (amended): neither malformed-length case is classified.
A size field of 8 ASCII bytes rejected by Python int() makes extract
end in an uncaught ValueError, and a well-formed header whose declared
size exceeds the available bytes also ends in an uncaught exception:
the unexpected-end-of-file branch prints its message and calls
sys.exit(1), but the finally block then closes the already-closed
output descriptor and the resulting OSError replaces the SystemExit,
leaving a partially written output file behind.  Both cases are
unclassified crashes, not MalformedLength or TruncatedBody errors. -/
theorem claim_C6_amended :
    (∀ (field rest : List Nat), field.length = 8 → allAscii field = true →
      pyIntAscii? field = none → extract (field ++ rest) = ⟨[], Outcome.exc⟩) ∧
    (∀ (name content : List Nat) (sz : Nat), name ≠ [] → allAscii name = true →
      sz < 100000000 → name.length < 100000000 → content.length < sz →
      extract (pad8 sz ++ (pad8 name.length ++ (name ++ content))) =
        ⟨[(newTag ++ name, content)], Outcome.exc⟩) := by
  constructor
  · intro field rest h8 ha hp
    exact extract_bad_size_field field rest h8 ha hp
  · intro name content sz h1 h2 h3 h4 h5
    exact extract_trunc_body name content sz h1 h2 h3 h4 h5

/-- Claim C6 (witness): both amended branches at concrete inputs. -/
theorem claim_C6_witness :
    extract (strBytes "12AB5678" ++ strBytes "0000000") = ⟨[], Outcome.exc⟩ ∧
    extract (pad8 9 ++ (pad8 (strBytes "abc").length ++
        (strBytes "abc" ++ strBytes "xy"))) =
      ⟨[(newTag ++ strBytes "abc", strBytes "xy")], Outcome.exc⟩ :=
  ⟨claim_C6_amended.1 (strBytes "12AB5678") (strBytes "0000000")
      (by decide) (by decide) (by decide),
   claim_C6_amended.2 (strBytes "abc") (strBytes "xy") 9
      (by decide) (by decide) (by decide) (by decide) (by decide)⟩

/-- Claim C7 (counterexample): the filename the server derives from a
received archive name is just the new_ prefix glued to the stripped
name: for the traversal name ../../etc/passwd the derived filename is
new_../../etc/passwd, which still contains the directory separator
byte 47, so directory components of the untrusted input survive. -/
theorem claim_C7_counterexample :
    deriveArchiveName (strBytes "../../etc/passwd") = strBytes "new_../../etc/passwd" ∧
    47 ∈ deriveArchiveName (strBytes "../../etc/passwd") := by
  exact ⟨by decide, by decide⟩

/-- Claim C7 (amended): the server prefixes new_ to the stripped
received name without removing directory components: every slash byte
in the received name is preserved in the derived output filename. -/
theorem claim_C7_amended (name : List Nat) (h : 47 ∈ name) :
    47 ∈ deriveArchiveName name := by
  simp only [deriveArchiveName]
  exact List.mem_append.mpr (Or.inr (mem_pyStrStrip_of_mem h (by decide)))

/-- Claim C7 (witness): the amended statement at a concrete name. -/
theorem claim_C7_witness : 47 ∈ deriveArchiveName (strBytes "sub/file.tar") :=
  claim_C7_amended (strBytes "sub/file.tar") (by decide)

/-- Claim C8 (confirmed): for every file list within the 8-digit size
limit and every positive streaming chunk size, Archiver.archive
produces exactly the concatenation, in input order, of each record as
size field, name-length field, name bytes and content bytes, with both
header fields exactly 8 ASCII digits; the produced bytes do not depend
on the chunk size. -/
theorem claim_C8_encode_layout (files : List FFile) (k : Nat) (hk : 0 < k)
    (hbound : ∀ f ∈ files, f.content.length < 100000000 ∧ f.name.length < 100000000) :
    archiveChunked k files =
      (files.map (fun f =>
        pad8 f.content.length ++ pad8 f.name.length ++ f.name ++ f.content)).flatten ∧
    ∀ f ∈ files, (pad8 f.content.length).length = 8 ∧ (pad8 f.name.length).length = 8 := by
  constructor
  · rw [archiveChunked_eq hk]
    rfl
  · intro f hf
    exact ⟨pad8_len _ (hbound f hf).1, pad8_len _ (hbound f hf).2⟩

/-- Claim C8 (witness): the statement at a concrete list and chunk
size 2. -/
theorem claim_C8_witness :
    archiveChunked 2 [⟨strBytes "a.txt", strBytes "xyz"⟩] =
      (([⟨strBytes "a.txt", strBytes "xyz"⟩] : List FFile).map (fun f =>
        pad8 f.content.length ++ pad8 f.name.length ++ f.name ++ f.content)).flatten ∧
    ∀ f ∈ [(⟨strBytes "a.txt", strBytes "xyz"⟩ : FFile)],
      (pad8 f.content.length).length = 8 ∧ (pad8 f.name.length).length = 8 :=
  claim_C8_encode_layout [⟨strBytes "a.txt", strBytes "xyz"⟩] 2 (by decide) (by decide)

/-- Claim C9 (counterexample): a client that declares the negative size
-5 drives a reachable data-arrival step that writes 3 bytes to the
output file: the Python slice buffer[:remaining] with negative
remaining keeps all but the last 5 bytes, so more than expectedSize
bytes are consumed and written and received stays above expectedSize. -/
theorem claim_C9_counterexample :
    (resConn (handle_client freshConn (strBytes "x\n-5\nAAAAAAAA"))).file_size =
      some (-5) ∧
    (resConn (handle_client freshConn (strBytes "x\n-5\nAAAAAAAA"))).fileData.length = 3 ∧
    ¬(((resConn (handle_client freshConn (strBytes "x\n-5\nAAAAAAAA"))).fileData.length : Int)
        ≤ -5) := by
  exact ⟨by decide, by decide, by decide⟩

/-- Claim C9 (amended): for a connection in the data phase whose
expected size is a non-negative n with received at most n and the
output file holding exactly received bytes, one process_data step
consumes exactly min(buffer length, n - received) bytes, appends
exactly those bytes to the output file, and preserves received at most
n and output length equal to received — so at most n bytes are ever
written. -/
theorem claim_C9_amended (c : Conn) (n : Nat)
    (_hst : c.state = Phase.data)
    (hfs : c.file_size = some ((n : Nat) : Int))
    (hrec : c.received ≤ n)
    (hfd : c.fileData.length = c.received) :
    (resConn (process_data c)).fileData =
        c.fileData ++ c.buffer.take (n - c.received) ∧
    (resConn (process_data c)).received =
        c.received + min (n - c.received) c.buffer.length ∧
    (resConn (process_data c)).received ≤ n ∧
    (resConn (process_data c)).fileData.length = (resConn (process_data c)).received :=
  process_data_step c n hfs hrec hfd

/-- Claim C9 (witness): the amended statement at a concrete data-phase
connection. -/
theorem claim_C9_witness :
    (resConn (process_data ⟨Phase.data, strBytes "abcd", some (strBytes "new_f"),
        some 10, 2, strBytes "xy"⟩)).fileData =
      strBytes "xy" ++ (strBytes "abcd").take (10 - 2) ∧
    (resConn (process_data ⟨Phase.data, strBytes "abcd", some (strBytes "new_f"),
        some 10, 2, strBytes "xy"⟩)).received = 2 + min (10 - 2) (strBytes "abcd").length ∧
    (resConn (process_data ⟨Phase.data, strBytes "abcd", some (strBytes "new_f"),
        some 10, 2, strBytes "xy"⟩)).received ≤ 10 ∧
    (resConn (process_data ⟨Phase.data, strBytes "abcd", some (strBytes "new_f"),
        some 10, 2, strBytes "xy"⟩)).fileData.length =
      (resConn (process_data ⟨Phase.data, strBytes "abcd", some (strBytes "new_f"),
        some 10, 2, strBytes "xy"⟩)).received :=
  claim_C9_amended ⟨Phase.data, strBytes "abcd", some (strBytes "new_f"), some 10, 2,
    strBytes "xy"⟩ 10 rfl rfl (by decide) (by decide)

/-- Claim C10 (confirmed): a container whose first record declares a
zero-length name (name-length field 00000000) is rejected by
Archiver.extract with the printed-error-plus-exit path for an empty
filename, producing no output file, even though both 8-byte header
fields are well-formed and the declared content is present. -/
theorem claim_C10_empty_name (s : Nat) (content : List Nat)
    (hs : s < 100000000) (_hc : content.length = s) :
    extract (pad8 s ++ (pad8 0 ++ content)) =
      ⟨[], Outcome.exitErr ErrKind.emptyFilename⟩ :=
  extract_zero_namelen s content hs

/-- Claim C10 (witness): the statement at a concrete container with a
zero-length name and two content bytes. -/
theorem claim_C10_witness :
    extract (pad8 2 ++ (pad8 0 ++ strBytes "hi")) =
      ⟨[], Outcome.exitErr ErrKind.emptyFilename⟩ :=
  claim_C10_empty_name 2 (strBytes "hi") (by decide) (by decide)
